import Mathlib

/-!
Shallow embedding of `src/negatives_generator.py` (diskrotrepo/Prompt-Enhancer).

Python strings are modelled as Lean `String`s (sequences of characters, so
`String.length` agrees with Python `len` on `str`), Python lists as Lean
`List`s.  Python's whitespace classes (`\s` in `re`, `str.strip()`) are
modelled by the six ASCII whitespace characters, which is the subset relevant
to every input considered here.  Fallible operations (indexing, `%` by zero,
the unbound-variable path of `combine_lists`) are modelled with `Option`.
Randomness (`random.choice`, `random.shuffle`) is modelled by explicit
parameters: a draw function `pick : Nat → Fin 3` for the per-item modifier
choice, and a function `shuffle : List String → List String` standing for the
reordering that `random.shuffle` applies to its (copied) argument; theorems
quantify over these, requiring of `shuffle` only that its output is a
permutation of its input.
-/

/-- The six ASCII whitespace characters: the model of Python's `\s` class and
of the characters removed by `str.strip()`. -/
def isPySpace (c : Char) : Bool :=
  c = ' ' || c = '\t' || c = '\n' || c = '\r' || c = '\x0b' || c = '\x0c'

/-- Model of `re.sub(r'[;]+', ',', s)` (line 16): every maximal run of one or
more semicolons is replaced by a single comma.  The single comma is emitted at
the end of the run, which yields the same output string. -/
def replaceSemiRuns : List Char → List Char
  | [] => []
  | [c] => if c = ';' then [','] else [c]
  | c :: d :: rest =>
    if c = ';' then
      if d = ';' then replaceSemiRuns (d :: rest)
      else ',' :: replaceSemiRuns (d :: rest)
    else c :: replaceSemiRuns (d :: rest)

/-- Worker for `normCommaWs`.  `pend` buffers a run of whitespace whose fate
is not yet known: it is dropped if a comma follows it, kept otherwise.
`afterComma` records that the previous emitted character was a comma produced
by a match, so following whitespace belongs to that match's trailing `\s*` and
is dropped unconditionally. -/
def normGo (afterComma : Bool) (pend : List Char) : List Char → List Char
  | [] => pend
  | c :: rest =>
    if isPySpace c then
      if afterComma then normGo true [] rest
      else normGo false (pend ++ [c]) rest
    else if c = ',' then
      ',' :: normGo true [] rest
    else
      pend ++ c :: normGo false [] rest

/-- Model of `re.sub(r'\s*,\s*', ',', s)` (line 17): each leftmost match,
consisting of a (possibly empty) whitespace run, a comma, and a greedy
trailing whitespace run, is replaced by a single comma. -/
def normCommaWs (l : List Char) : List Char :=
  normGo false [] l

/-- Model of Python `s.split(",")`: the pieces between commas, in order,
empty pieces included; the empty string yields `[[]]`, one empty piece. -/
def splitComma : List Char → List (List Char)
  | [] => [[]]
  | c :: rest =>
    if c = ',' then [] :: splitComma rest
    else
      match splitComma rest with
      | [] => [[c]]
      | p :: ps => (c :: p) :: ps

/-- Model of Python `s.strip()`: leading and trailing whitespace removed. -/
def stripChars (l : List Char) : List Char :=
  ((l.dropWhile isPySpace).reverse.dropWhile isPySpace).reverse

/-- `parse_input` (lines 4–21): replace semicolon runs with commas, collapse
whitespace around commas, split on commas, strip each piece, and keep the
non-empty pieces in order. -/
def parse_input (raw : String) : List String :=
  let n1 := replaceSemiRuns raw.data
  let n2 := normCommaWs n1
  ((splitComma n2).map (fun p => String.mk (stripChars p))).filter (fun s => s != "")

/-- The built-in descriptor block `raw_descs` of `main` (lines 175–177),
including the surrounding newlines and indentation of the Python
triple-quoted literal. -/
def raw_descs : String :=
  "\n    Horrorcore, Rockabilly, Soundtrack, kid\x27s, children\x27s, Christmas, holiday, jingle, oldies, Teen, Vocaloid, idol, K-Pop, mandarin, LGBT, Swing, Country, Anime, Black Metal, Straight Edge, Psychobilly, mediocre, Parody, humorous, Comedy, Reggaetón, Drill, Future Bass, Big Room House, Dubstep, Bounce, Hardstyle, Trance, Jersey Club, Footwork, Chiptune, Psytrance, Moombahton, Riddim Dubstep, Tech-House, Phonk, Electro-swing, Cumbia, Tango, Bossa Nova, Samba, Dancehall, Bhangra, Disco, Polka, Vaporwave, Minimal Techno, Blues, Sea Shanty, Lo-fi Hip-Hop, Synthwave, K-pop\n    "

/-- The built-in descriptor catalog (line 180):
`[desc.strip() for desc in raw_descs.split(",") if desc.strip()]`. -/
def descriptors : List String :=
  ((splitComma raw_descs.data).map (fun p => String.mk (stripChars p))).filter
    (fun s => s != "")

/-- Model of Python `list.copy()`: in value semantics a fresh copy has the
same elements. -/
def pyCopy (l : List α) : List α := l

/-- Model of Python `a % b` on non-negative integers: `ZeroDivisionError`
when `b = 0`, otherwise the remainder. -/
def pyMod (a b : Nat) : Option Nat :=
  if b = 0 then none else some (a % b)

/-- The fixed modifier list of `generate_negated_list` (line 47). -/
def negative_modifiers : List String := ["not", "no", "un-"]

/-- Indexing into `negative_modifiers`: `random.choice(seq)` returns the
element of `seq` at a uniformly drawn index, so a draw is a `Fin 3`. -/
def modifierAt : Fin 3 → String
  | ⟨0, _⟩ => "not"
  | ⟨1, _⟩ => "no"
  | ⟨_ + 2, _⟩ => "un-"

/-- The loop of `generate_negated_list` (lines 50–52); `i` counts the
position so that `pick i` is the random draw made for the `i`-th item. -/
def negated_go (pick : Nat → Fin 3) : Nat → List String → List String
  | _, [] => []
  | i, item :: rest => (modifierAt (pick i) ++ " " ++ item) :: negated_go pick (i + 1) rest

/-- `generate_negated_list` (lines 37–54): each item becomes
`f"{modifier} {item}"` for a randomly drawn modifier. -/
def generate_negated_list (pick : Nat → Fin 3) (input_items : List String) : List String :=
  negated_go pick 0 input_items

/-- The loop body of `generate_bad_descriptor_list` (lines 77–84) run over a
list of loop indices.  In the source, `desc_index` and `item_index` both
start at 0 and are incremented once per iteration, so both equal the loop
counter `i`.  Indexing and `%` are fallible, as in Python. -/
def bad_go (input_items shuffled_descriptors : List String) : List Nat → Option (List String)
  | [] => some []
  | i :: rest => do
    let di ← pyMod i shuffled_descriptors.length
    let desc ← shuffled_descriptors[di]?
    let ii ← pyMod i input_items.length
    let item ← input_items[ii]?
    let tl ← bad_go input_items shuffled_descriptors rest
    some ((desc ++ " " ++ item) :: tl)

/-- `generate_bad_descriptor_list` (lines 57–86): shuffle a copy of the
catalog, then pair descriptor `i` with item `i mod len(items)` for every
`i < len(catalog)`.  `shuffle` stands for the reordering performed in place
by `random.shuffle` on the copied list. -/
def generate_bad_descriptor_list (shuffle : List String → List String)
    (input_items descs : List String) : Option (List String) :=
  let shuffled_descriptors := shuffle (pyCopy descs)
  bad_go input_items shuffled_descriptors (List.range shuffled_descriptors.length)

/-- The loop body of `generate_positive_list` (lines 137–138) run over a
list of loop indices. -/
def pos_go (input_items : List String) : List Nat → Option (List String)
  | [] => some []
  | i :: rest => do
    let ii ← pyMod i input_items.length
    let item ← input_items[ii]?
    let tl ← pos_go input_items rest
    some (item :: tl)

/-- `generate_positive_list` (lines 123–140): element `i` of the result is
`input_items[i % len(input_items)]`, for `i` up to the combined list's
length. -/
def generate_positive_list (input_items combined_negative_list : List String) :
    Option (List String) :=
  pos_go input_items (List.range combined_negative_list.length)

/-- Model of Python `", ".join(l)`. -/
def join_comma : List String → String
  | [] => ""
  | [s] => s
  | s :: rest => s ++ ", " ++ join_comma rest

/-- The accepted-terms loop of `combine_lists` (lines 106–114): append each
candidate whose tentative comma-joined serialization stays within the limit;
stop at the first candidate that would exceed it. -/
def combine_go (combined_terms : List String) (length_limit : Nat) : List String → List String
  | [] => combined_terms
  | bad_term :: rest =>
    if (join_comma (combined_terms ++ [bad_term])).length > length_limit then combined_terms
    else combine_go (combined_terms ++ [bad_term]) length_limit rest

/-- `combine_lists` (lines 89–120).  On any `combination_type` other than
`"negated_first"` the local `combined_terms` is never assigned, so the final
`return combined_terms` raises `UnboundLocalError`; that error path is
modelled as `none`. -/
def combine_lists (negated_list bad_list : List String) (length_limit : Nat)
    (combination_type : String) : Option (List String) :=
  if combination_type = "negated_first" then
    some (combine_go (pyCopy negated_list) length_limit bad_list)
  else
    none

/-- The list-producing core of `build_versions` (lines 143–163) with the
budget 1000 and mode `"negated_first"` hard-coded at line 156; the result is
the pair of rendered strings `(good_version, bad_version)`. -/
def build_versions (pick : Nat → Fin 3) (shuffle : List String → List String)
    (input_items descs : List String) : Option (String × String) := do
  let negated_list := generate_negated_list pick input_items
  let bad_descriptor_list ← generate_bad_descriptor_list shuffle input_items descs
  let combined_negative_list ← combine_lists negated_list bad_descriptor_list 1000 "negated_first"
  let positive_list ← generate_positive_list input_items combined_negative_list
  some (join_comma positive_list, join_comma combined_negative_list)

/-- State-passing form of `generate_bad_descriptor_list`: Python lists are
mutable, so alongside the result we return the final contents of the two
argument lists.  The source shuffles `descriptors.copy()` (lines 69–70) and
never writes to either argument, so both come back unchanged. -/
def generate_bad_descriptor_list_state (shuffle : List String → List String)
    (input_items descs : List String) :
    Option (List String) × List String × List String :=
  let shuffled_descriptors := shuffle (pyCopy descs)
  (bad_go input_items shuffled_descriptors (List.range shuffled_descriptors.length),
    input_items, descs)

/-- State-passing form of `combine_lists`: the loop appends only to
`combined_terms = negated_list.copy()` (line 103), never to either argument,
so both come back unchanged. -/
def combine_lists_state (negated_list bad_list : List String) (length_limit : Nat)
    (combination_type : String) :
    Option (List String) × List String × List String :=
  (combine_lists negated_list bad_list length_limit combination_type,
    negated_list, bad_list)

lemma modifierAt_mem (k : Fin 3) : modifierAt k ∈ negative_modifiers := by
  rcases k with ⟨v, hv⟩
  match v with
  | 0 => simp [modifierAt, negative_modifiers]
  | 1 => simp [modifierAt, negative_modifiers]
  | 2 => simp [modifierAt, negative_modifiers]
  | n + 3 => omega

lemma negated_go_length (pick : Nat → Fin 3) :
    ∀ (l : List String) (i0 : Nat), (negated_go pick i0 l).length = l.length := by
  intro l
  induction l with
  | nil => intro i0; rfl
  | cons item rest ih => intro i0; simp [negated_go, ih]

lemma negated_go_getElem? (pick : Nat → Fin 3) :
    ∀ (l : List String) (i0 j : Nat),
      (negated_go pick i0 l)[j]? =
        (l[j]?).map (fun item => modifierAt (pick (i0 + j)) ++ " " ++ item) := by
  intro l
  induction l with
  | nil => intro i0 j; simp [negated_go]
  | cons item rest ih =>
    intro i0 j
    cases j with
    | zero => simp [negated_go]
    | succ j' =>
      have h := ih (i0 + 1) j'
      simp only [negated_go, List.getElem?_cons_succ, h]
      have : i0 + 1 + j' = i0 + (j' + 1) := by omega
      rw [this]

lemma bad_go_eq (input_items shuffled : List String) (hin : input_items ≠ []) :
    ∀ L : List Nat, (∀ i ∈ L, i < shuffled.length) →
      bad_go input_items shuffled L =
        some (L.map (fun i =>
          shuffled.getD i "" ++ " " ++ input_items.getD (i % input_items.length) "")) := by
  intro L
  induction L with
  | nil => intro _; rfl
  | cons i rest ih =>
    intro hb
    have hi : i < shuffled.length := hb i (by simp)
    have hrest : ∀ j ∈ rest, j < shuffled.length := fun j hj => hb j (by simp [hj])
    have hpos : 0 < input_items.length := List.length_pos.mpr hin
    have hm : i % input_items.length < input_items.length := Nat.mod_lt _ hpos
    have h1 : pyMod i shuffled.length = some i := by
      unfold pyMod
      rw [if_neg (by omega), Nat.mod_eq_of_lt hi]
    have h2 : pyMod i input_items.length = some (i % input_items.length) := by
      unfold pyMod
      rw [if_neg (by omega)]
    simp [bad_go, h1, h2, List.getElem?_eq_getElem, hi, hm, ih hrest,
      List.getD_eq_getElem?_getD]

lemma pos_go_eq (input_items : List String) (hin : input_items ≠ []) :
    ∀ L : List Nat,
      pos_go input_items L =
        some (L.map (fun i => input_items.getD (i % input_items.length) "")) := by
  intro L
  induction L with
  | nil => rfl
  | cons i rest ih =>
    have hpos : 0 < input_items.length := List.length_pos.mpr hin
    have hm : i % input_items.length < input_items.length := Nat.mod_lt _ hpos
    have h2 : pyMod i input_items.length = some (i % input_items.length) := by
      unfold pyMod
      rw [if_neg (by omega)]
    simp [pos_go, h2, List.getElem?_eq_getElem, hm, ih, List.getD_eq_getElem?_getD]

lemma generate_bad_descriptor_list_eq (shuffle : List String → List String)
    (input_items descs : List String) (hin : input_items ≠ []) :
    generate_bad_descriptor_list shuffle input_items descs =
      some ((List.range (shuffle (pyCopy descs)).length).map (fun i =>
        (shuffle (pyCopy descs)).getD i "" ++ " " ++
          input_items.getD (i % input_items.length) "")) := by
  unfold generate_bad_descriptor_list
  exact bad_go_eq input_items _ hin _ (fun i hi => List.mem_range.mp hi)

lemma generate_positive_list_eq (input_items combined : List String) (hin : input_items ≠ []) :
    generate_positive_list input_items combined =
      some ((List.range combined.length).map (fun i =>
        input_items.getD (i % input_items.length) "")) := by
  unfold generate_positive_list
  exact pos_go_eq input_items hin _

lemma join_comma_append_single (l : List String) (x : String) :
    join_comma (l ++ [x]) = if l = [] then x else join_comma l ++ ", " ++ x := by
  induction l with
  | nil => simp [join_comma]
  | cons a t ih =>
    cases t with
    | nil => simp [join_comma]
    | cons b t' =>
      rw [if_neg (by simp)]
      have e1 : join_comma ((a :: b :: t') ++ [x]) =
          a ++ ", " ++ join_comma ((b :: t') ++ [x]) := rfl
      have e2 : join_comma (a :: b :: t') = a ++ ", " ++ join_comma (b :: t') := rfl
      rw [e1, e2, ih, if_neg (by simp)]
      simp [String.append_assoc]

lemma join_comma_length_append_single (l : List String) (x : String) :
    (join_comma l).length ≤ (join_comma (l ++ [x])).length := by
  rw [join_comma_append_single]
  by_cases h : l = []
  · simp [h, join_comma]
  · rw [if_neg h]
    simp [String.length_append]
    omega

lemma combine_go_spec (length_limit : Nat) :
    ∀ (bad_list combined_terms : List String),
      ∃ k, k ≤ bad_list.length ∧
        combine_go combined_terms length_limit bad_list =
          combined_terms ++ bad_list.take k ∧
        (∀ j, j < k →
          (join_comma (combined_terms ++ bad_list.take (j + 1))).length ≤ length_limit) ∧
        (k < bad_list.length →
          (join_comma (combined_terms ++ bad_list.take (k + 1))).length > length_limit) := by
  intro bad_list
  induction bad_list with
  | nil =>
    intro combined_terms
    exact ⟨0, by simp [combine_go]⟩
  | cons b rest ih =>
    intro combined_terms
    by_cases h : (join_comma (combined_terms ++ [b])).length > length_limit
    · refine ⟨0, by simp, ?_, ?_, ?_⟩
      · simp [combine_go, h]
      · intro j hj; omega
      · intro _
        simpa using h
    · obtain ⟨k', hk'le, hk'eq, hk'acc, hk'stop⟩ := ih (combined_terms ++ [b])
      refine ⟨k' + 1, by simp; omega, ?_, ?_, ?_⟩
      · rw [List.take_succ_cons]
        simp only [combine_go, if_neg h]
        rw [hk'eq, List.append_assoc, List.singleton_append]
      · intro j hj
        cases j with
        | zero =>
          simp only [List.take_succ_cons, List.take_zero]
          omega
        | succ j' =>
          have := hk'acc j' (by omega)
          rw [List.append_assoc, List.singleton_append] at this
          simpa using this
      · intro hlt
        have := hk'stop (by simpa using Nat.lt_of_succ_lt_succ hlt)
        rw [List.append_assoc, List.singleton_append] at this
        simpa using this

lemma splitComma_ne_nil : ∀ l : List Char, splitComma l ≠ [] := by
  intro l
  induction l with
  | nil => simp [splitComma]
  | cons c rest ih =>
    rcases hsp : splitComma rest with _ | ⟨p, ps⟩
    · exact absurd hsp ih
    · by_cases h : c = ',' <;> simp [splitComma, h, hsp]

lemma splitComma_mem_no_comma : ∀ (l : List Char), ∀ p ∈ splitComma l, ',' ∉ p := by
  intro l
  induction l with
  | nil =>
    intro p hp
    simp [splitComma] at hp
    simp [hp]
  | cons c rest ih =>
    intro p hp
    by_cases h : c = ','
    · simp only [splitComma, if_pos h, List.mem_cons] at hp
      rcases hp with rfl | hp
      · simp
      · exact ih p hp
    · rcases hsp : splitComma rest with _ | ⟨p0, ps⟩
      · exact absurd hsp (splitComma_ne_nil rest)
      · simp only [splitComma, if_neg h, hsp, List.mem_cons] at hp
        rcases hp with rfl | hp
        · have h0 : ',' ∉ p0 := ih p0 (by rw [hsp]; simp)
          intro hmem
          rcases List.mem_cons.mp hmem with he | hm
          · exact h he.symm
          · exact h0 hm
        · exact ih p (by rw [hsp]; simp [hp])

lemma splitComma_mem_subset : ∀ (l : List Char), ∀ p ∈ splitComma l, ∀ a ∈ p, a ∈ l := by
  intro l
  induction l with
  | nil =>
    intro p hp
    simp [splitComma] at hp
    simp [hp]
  | cons c rest ih =>
    intro p hp a ha
    by_cases h : c = ','
    · simp only [splitComma, if_pos h, List.mem_cons] at hp
      rcases hp with rfl | hp
      · simp at ha
      · exact List.mem_cons_of_mem _ (ih p hp a ha)
    · rcases hsp : splitComma rest with _ | ⟨p0, ps⟩
      · exact absurd hsp (splitComma_ne_nil rest)
      · simp only [splitComma, if_neg h, hsp, List.mem_cons] at hp
        rcases hp with rfl | hp
        · rcases List.mem_cons.mp ha with rfl | hm
          · exact List.mem_cons_self _ _
          · exact List.mem_cons_of_mem _ (ih p0 (by rw [hsp]; simp) a hm)
        · exact List.mem_cons_of_mem _ (ih p (by rw [hsp]; simp [hp]) a ha)

lemma replaceSemiRuns_no_semi : ∀ l : List Char, ';' ∉ replaceSemiRuns l := by
  intro l
  induction l with
  | nil => simp [replaceSemiRuns]
  | cons c tail ih =>
    cases tail with
    | nil =>
      by_cases h : c = ';'
      · simp [replaceSemiRuns, h]
      · simp only [replaceSemiRuns, if_neg h]
        intro hmem
        rcases List.mem_cons.mp hmem with he | hm
        · exact h he.symm
        · simp at hm
    | cons d rest =>
      by_cases h : c = ';'
      · by_cases h2 : d = ';'
        · simpa [replaceSemiRuns, h, h2] using ih
        · simp only [replaceSemiRuns, if_pos h, if_neg h2]
          intro hmem
          rcases List.mem_cons.mp hmem with he | hm
          · exact absurd he.symm (by decide)
          · exact ih hm
      · simp only [replaceSemiRuns, if_neg h]
        intro hmem
        rcases List.mem_cons.mp hmem with he | hm
        · exact h he.symm
        · exact ih hm

lemma normGo_cons (ac : Bool) (pend : List Char) (x : Char) (rest : List Char) :
    normGo ac pend (x :: rest) =
      if isPySpace x then
        (if ac then normGo true [] rest else normGo false (pend ++ [x]) rest)
      else if x = ',' then ',' :: normGo true [] rest
      else pend ++ x :: normGo false [] rest := rfl

lemma normGo_mem : ∀ (l pend : List Char) (ac : Bool) (c : Char),
    c ∈ normGo ac pend l → c ∈ pend ∨ c ∈ l ∨ c = ',' := by
  intro l
  induction l with
  | nil =>
    intro pend ac c hc
    simp [normGo] at hc
    exact Or.inl hc
  | cons x rest ih =>
    intro pend ac c hc
    by_cases hs : isPySpace x
    · cases ac with
      | true =>
        rw [normGo_cons, if_pos hs, if_pos rfl] at hc
        rcases ih _ _ _ hc with hp | hr | hcm
        · simp at hp
        · exact Or.inr (Or.inl (List.mem_cons_of_mem _ hr))
        · exact Or.inr (Or.inr hcm)
      | false =>
        rw [normGo_cons, if_pos hs, if_neg (by decide)] at hc
        rcases ih _ _ _ hc with hp | hr | hcm
        · rcases List.mem_append.mp hp with h1 | h2
          · exact Or.inl h1
          · simp at h2
            subst h2
            exact Or.inr (Or.inl (List.mem_cons_self _ _))
        · exact Or.inr (Or.inl (List.mem_cons_of_mem _ hr))
        · exact Or.inr (Or.inr hcm)
    · by_cases hx : x = ','
      · subst hx
        rw [normGo_cons, if_neg hs, if_pos rfl] at hc
        rcases List.mem_cons.mp hc with rfl | hc
        · exact Or.inr (Or.inr rfl)
        · rcases ih _ _ _ hc with hp | hr | hcm
          · simp at hp
          · exact Or.inr (Or.inl (List.mem_cons_of_mem _ hr))
          · exact Or.inr (Or.inr hcm)
      · rw [normGo_cons, if_neg hs, if_neg hx] at hc
        rcases List.mem_append.mp hc with h1 | h2
        · exact Or.inl h1
        · rcases List.mem_cons.mp h2 with rfl | h3
          · exact Or.inr (Or.inl (List.mem_cons_self _ _))
          · rcases ih _ _ _ h3 with hp | hr | hcm
            · simp at hp
            · exact Or.inr (Or.inl (List.mem_cons_of_mem _ hr))
            · exact Or.inr (Or.inr hcm)

lemma stripChars_sublist (l : List Char) : List.Sublist (stripChars l) l := by
  unfold stripChars
  have h1 : List.Sublist (l.dropWhile isPySpace) l := List.dropWhile_sublist _
  have h2 : List.Sublist ((l.dropWhile isPySpace).reverse.dropWhile isPySpace)
      (l.dropWhile isPySpace).reverse := List.dropWhile_sublist _
  have h3 := h2.reverse
  rw [List.reverse_reverse] at h3
  exact h3.trans h1

lemma head?_dropWhile_false (p : Char → Bool) : ∀ (l : List Char) (c : Char),
    (l.dropWhile p).head? = some c → p c = false := by
  intro l
  induction l with
  | nil => intro c h; simp [List.dropWhile] at h
  | cons x rest ih =>
    intro c h
    by_cases hx : p x
    · rw [List.dropWhile_cons, if_pos hx] at h
      exact ih c h
    · rw [List.dropWhile_cons, if_neg hx] at h
      simp at h
      rcases h with ⟨rfl, -⟩
      simpa using hx

lemma getLast?_of_suffix {l₁ l₂ : List Char} (h : l₁ <:+ l₂) {c : Char}
    (hc : l₁.getLast? = some c) : l₂.getLast? = some c := by
  obtain ⟨t, rfl⟩ := h
  rw [List.getLast?_append, hc]
  rfl

lemma stripChars_head?_not_space (l : List Char) (c : Char) :
    (stripChars l).head? = some c → isPySpace c = false := by
  intro h
  unfold stripChars at h
  rw [List.head?_reverse] at h
  have h2 : (l.dropWhile isPySpace).reverse.getLast? = some c :=
    getLast?_of_suffix (List.dropWhile_suffix isPySpace) h
  rw [List.getLast?_reverse] at h2
  exact head?_dropWhile_false isPySpace l c h2

lemma stripChars_getLast?_not_space (l : List Char) (c : Char) :
    (stripChars l).getLast? = some c → isPySpace c = false := by
  intro h
  unfold stripChars at h
  rw [List.getLast?_reverse] at h
  exact head?_dropWhile_false isPySpace _ c h

lemma combine_lists_negated_first (negated_list bad_list : List String) (length_limit : Nat) :
    ∃ k, k ≤ bad_list.length ∧
      combine_lists negated_list bad_list length_limit "negated_first" =
        some (negated_list ++ bad_list.take k) ∧
      (∀ j, j < k →
        (join_comma (negated_list ++ bad_list.take (j + 1))).length ≤ length_limit) ∧
      (k < bad_list.length →
        (join_comma (negated_list ++ bad_list.take (k + 1))).length > length_limit) := by
  obtain ⟨k, h1, h2, h3, h4⟩ := combine_go_spec length_limit bad_list negated_list
  exact ⟨k, h1, by simp [combine_lists, pyCopy, h2], h3, h4⟩

/-- C1: in `"negated_first"` mode, `combine_lists` accepts a greedy longest
budget-respecting run of leading bad-descriptor terms: the result is the
negated list followed by the first `k` bad terms, each accepted step keeps the
comma-and-space-joined length within the budget, the `(k+1)`-st term (when it
exists) is the first whose tentative append would exceed the budget and it and
everything after it are excluded, and whenever at least one bad term was
accepted the joined length of the result is within the budget. -/
theorem claim_C1_budget_greedy (negated_list bad_list : List String) (length_limit : Nat) :
    ∃ k, k ≤ bad_list.length ∧
      combine_lists negated_list bad_list length_limit "negated_first" =
        some (negated_list ++ bad_list.take k) ∧
      (∀ j, j < k →
        (join_comma (negated_list ++ bad_list.take (j + 1))).length ≤ length_limit) ∧
      (k < bad_list.length →
        (join_comma (negated_list ++ bad_list.take (k + 1))).length > length_limit) ∧
      (0 < k → (join_comma (negated_list ++ bad_list.take k)).length ≤ length_limit) := by
  obtain ⟨k, h1, h2, h3, h4⟩ := combine_lists_negated_first negated_list bad_list length_limit
  refine ⟨k, h1, h2, h3, h4, ?_⟩
  intro hk
  have hstep := h3 (k - 1) (by omega)
  have he : k - 1 + 1 = k := by omega
  rw [he] at hstep
  exact hstep

theorem claim_C1_budget_greedy_witness :
    ∃ k, k ≤ (["X cat", "Y cat"] : List String).length ∧
      combine_lists ["no cat"] ["X cat", "Y cat"] 13 "negated_first" =
        some (["no cat"] ++ (["X cat", "Y cat"] : List String).take k) ∧
      (∀ j, j < k →
        (join_comma (["no cat"] ++ (["X cat", "Y cat"] : List String).take (j + 1))).length
          ≤ 13) ∧
      (k < (["X cat", "Y cat"] : List String).length →
        (join_comma (["no cat"] ++ (["X cat", "Y cat"] : List String).take (k + 1))).length
          > 13) ∧
      (0 < k →
        (join_comma (["no cat"] ++ (["X cat", "Y cat"] : List String).take k)).length ≤ 13) :=
  claim_C1_budget_greedy ["no cat"] ["X cat", "Y cat"] 13

/-- C2: in `"negated_first"` mode the result always has the whole negated
list as a prefix, everything after that prefix is drawn from the bad list,
and if the joined negated list alone already exceeds the budget the result is
exactly the negated list: the budget check only gates additions. -/
theorem claim_C2_negated_kept (negated_list bad_list : List String) (length_limit : Nat) :
    ∃ r, combine_lists negated_list bad_list length_limit "negated_first" = some r ∧
      negated_list <+: r ∧
      (∀ x ∈ r.drop negated_list.length, x ∈ bad_list) ∧
      ((join_comma negated_list).length > length_limit → r = negated_list) := by
  obtain ⟨k, h1, h2, h3, h4⟩ := combine_lists_negated_first negated_list bad_list length_limit
  refine ⟨negated_list ++ bad_list.take k, h2, ⟨_, rfl⟩, ?_, ?_⟩
  · intro x hx
    rw [List.drop_left] at hx
    exact List.take_subset _ _ hx
  · intro hover
    rcases Nat.eq_zero_or_pos k with rfl | hk
    · simp
    · exfalso
      have hacc := h3 0 hk
      have hlen : 0 < bad_list.length := lt_of_lt_of_le hk h1
      obtain ⟨b, rest, rfl⟩ : ∃ b rest, bad_list = b :: rest := by
        cases bad_list with
        | nil => simp at hlen
        | cons b rest => exact ⟨b, rest, rfl⟩
      rw [List.take_succ_cons, List.take_zero] at hacc
      have hmono := join_comma_length_append_single negated_list b
      omega

theorem claim_C2_negated_kept_witness :
    ∃ r, combine_lists ["not dog", "un- owl"] ["Z dog"] 3 "negated_first" = some r ∧
      (["not dog", "un- owl"] : List String) <+: r ∧
      (∀ x ∈ r.drop (["not dog", "un- owl"] : List String).length, x ∈ ["Z dog"]) ∧
      ((join_comma ["not dog", "un- owl"]).length > 3 → r = ["not dog", "un- owl"]) :=
  claim_C2_negated_kept ["not dog", "un- owl"] ["Z dog"] 3

/-- C3: `generate_negated_list` preserves length and order; element `i` is
the modifier drawn for index `i` — one of the three fixed strings — followed
by a space and the `i`-th input item; the empty input yields the empty
output. -/
theorem claim_C3_negation_generator (pick : Nat → Fin 3) (input_items : List String) :
    (generate_negated_list pick input_items).length = input_items.length ∧
    (∀ i item, input_items[i]? = some item →
      (generate_negated_list pick input_items)[i]? =
        some (modifierAt (pick i) ++ " " ++ item) ∧
      modifierAt (pick i) ∈ negative_modifiers) ∧
    generate_negated_list pick [] = [] := by
  refine ⟨negated_go_length pick input_items 0, ?_, rfl⟩
  intro i item hit
  constructor
  · rw [generate_negated_list, negated_go_getElem? pick input_items 0 i, hit]
    simp
  · exact modifierAt_mem _

theorem claim_C3_negation_generator_witness :
    (["cat", "dog"] : List String)[1]? = some "dog" ∧
    (generate_negated_list (fun _ => 2) ["cat", "dog"])[1]? =
      some (modifierAt ((fun _ : Nat => (2 : Fin 3)) 1) ++ " " ++ "dog") ∧
    modifierAt ((fun _ : Nat => (2 : Fin 3)) 1) ∈ negative_modifiers :=
  ⟨by decide,
    (claim_C3_negation_generator (fun _ => 2) ["cat", "dog"]).2.1 1 "dog" (by decide)⟩

/-- C4: for non-empty items and a non-empty catalog,
`generate_bad_descriptor_list` succeeds and returns exactly one term per
catalog entry (independently of the item count): there is a permutation `p`
of the catalog — the shuffled copy — such that term `i` is `p[i]` followed by
a space and item `i mod len(items)`. -/
theorem claim_C4_descriptor_combiner (shuffle : List String → List String)
    (input_items descs : List String) (hin : input_items ≠ []) (_hds : descs ≠ [])
    (hperm : (shuffle (pyCopy descs)).Perm descs) :
    ∃ (p bad : List String), List.Perm p descs ∧
      generate_bad_descriptor_list shuffle input_items descs = some bad ∧
      bad.length = descs.length ∧
      ∀ i, i < descs.length →
        bad[i]? = some (p.getD i "" ++ " " ++
          input_items.getD (i % input_items.length) "") := by
  have hlen : (shuffle (pyCopy descs)).length = descs.length := hperm.length_eq
  refine ⟨shuffle (pyCopy descs), _, hperm,
    generate_bad_descriptor_list_eq shuffle input_items descs hin, by simp [hlen], ?_⟩
  intro i hi
  rw [List.getElem?_map, List.getElem?_range (by omega : i < (shuffle (pyCopy descs)).length)]
  rfl

theorem claim_C4_descriptor_combiner_witness :
    (["owl"] : List String) ≠ [] ∧ (["A", "B", "C"] : List String) ≠ [] ∧
    ((fun l : List String => l.reverse) (pyCopy ["A", "B", "C"])).Perm ["A", "B", "C"] ∧
    ∃ (p bad : List String), List.Perm p ["A", "B", "C"] ∧
      generate_bad_descriptor_list (fun l => l.reverse) ["owl"] ["A", "B", "C"] = some bad ∧
      bad.length = (["A", "B", "C"] : List String).length ∧
      ∀ i, i < (["A", "B", "C"] : List String).length →
        bad[i]? = some (p.getD i "" ++ " " ++
          (["owl"] : List String).getD (i % (["owl"] : List String).length) "") :=
  ⟨by decide, by decide, by decide,
    claim_C4_descriptor_combiner (fun l => l.reverse) ["owl"] ["A", "B", "C"]
      (by decide) (by decide) (by decide)⟩

/-- C5: for non-empty items, `generate_positive_list` succeeds with one
element per element of the combined negative list, element `i` being
`items[i mod len(items)]`; for items `["a","b"]` and any length-5 combined
list the output is `["a","b","a","b","a"]`. -/
theorem claim_C5_positive_mirror :
    (∀ input_items combined_negative_list : List String, input_items ≠ [] →
      ∃ l, generate_positive_list input_items combined_negative_list = some l ∧
        l.length = combined_negative_list.length ∧
        ∀ i, i < combined_negative_list.length →
          l[i]? = some (input_items.getD (i % input_items.length) "")) ∧
    (∀ c : List String, c.length = 5 →
      generate_positive_list ["a", "b"] c = some ["a", "b", "a", "b", "a"]) := by
  constructor
  · intro input_items combined hin
    refine ⟨_, generate_positive_list_eq input_items combined hin, by simp, ?_⟩
    intro i hi
    rw [List.getElem?_map, List.getElem?_range hi]
    rfl
  · intro c hc
    rw [generate_positive_list, hc]
    decide

theorem claim_C5_positive_mirror_witness :
    (["a", "b"] : List String) ≠ [] ∧
    (∃ l, generate_positive_list ["a", "b"] ["q", "q", "q"] = some l ∧
      l.length = (["q", "q", "q"] : List String).length ∧
      ∀ i, i < (["q", "q", "q"] : List String).length →
        l[i]? = some ((["a", "b"] : List String).getD
          (i % (["a", "b"] : List String).length) "")) ∧
    ((["r", "r", "r", "r", "r"] : List String).length = 5 →
      generate_positive_list ["a", "b"] ["r", "r", "r", "r", "r"] =
        some ["a", "b", "a", "b", "a"]) :=
  ⟨by decide, claim_C5_positive_mirror.1 ["a", "b"] ["q", "q", "q"] (by decide),
    claim_C5_positive_mirror.2 ["r", "r", "r", "r", "r"]⟩

/-- C6: `parse_input` turns `"a; b ,, c"` into `["a","b","c"]`, may return
the empty list, returns a subsequence (order preserved, only empty pieces
discarded) of the trimmed comma-separated pieces of the normalized text, and
every returned piece is non-empty, contains no comma and no semicolon, and
carries no leading or trailing whitespace. -/
theorem claim_C6_parse_input :
    parse_input "a; b ,, c" = ["a", "b", "c"] ∧
    parse_input "" = [] ∧
    (∀ raw : String,
      List.Sublist (parse_input raw)
        ((splitComma (normCommaWs (replaceSemiRuns raw.data))).map
          (fun p => String.mk (stripChars p)))) ∧
    (∀ raw : String, ∀ s ∈ parse_input raw,
      s ≠ "" ∧ ',' ∉ s.data ∧ ';' ∉ s.data ∧
      (∀ c, s.data.head? = some c → isPySpace c = false) ∧
      (∀ c, s.data.getLast? = some c → isPySpace c = false)) := by
  refine ⟨by decide, by decide, ?_, ?_⟩
  · intro raw
    exact List.filter_sublist _
  · intro raw s hs
    simp only [parse_input, List.mem_filter, List.mem_map] at hs
    obtain ⟨⟨p, hp, rfl⟩, hne⟩ := hs
    have hsne : String.mk (stripChars p) ≠ "" := by simpa using hne
    refine ⟨hsne, ?_, ?_, ?_, ?_⟩
    · intro hc
      have hc' : ',' ∈ stripChars p := hc
      exact splitComma_mem_no_comma _ p hp ((stripChars_sublist p).subset hc')
    · intro hc
      have hc' : ';' ∈ stripChars p := hc
      have h1 : ';' ∈ p := (stripChars_sublist p).subset hc'
      have h2 : ';' ∈ normGo false [] (replaceSemiRuns raw.data) :=
        splitComma_mem_subset _ p hp _ h1
      rcases normGo_mem _ _ _ _ h2 with h3 | h3 | h3
      · simp at h3
      · exact replaceSemiRuns_no_semi _ h3
      · exact absurd h3 (by decide)
    · intro c hc
      exact stripChars_head?_not_space p c hc
    · intro c hc
      exact stripChars_getLast?_not_space p c hc

theorem claim_C6_parse_input_witness :
    "b" ∈ parse_input "a; b ,, c" ∧
    ("b" ≠ "" ∧ ',' ∉ "b".data ∧ ';' ∉ "b".data ∧
      (∀ c, "b".data.head? = some c → isPySpace c = false) ∧
      (∀ c, "b".data.getLast? = some c → isPySpace c = false)) :=
  ⟨by decide, claim_C6_parse_input.2.2.2 "a; b ,, c" "b" (by decide)⟩

/-- C7 (counterexample): the built-in descriptor catalog parsed from
`raw_descs` has 57 entries, not 60 as the claim asserts. -/
theorem claim_C7_catalog_counterexample :
    descriptors.length = 57 ∧ ¬ (descriptors.length = 60) := by
  constructor
  · decide
  · decide

/-- C7 (amended): for input `"cat, dog"` with the built-in catalog and the
default budget 1000: two items, catalog length 57, negated list length 2,
bad-descriptor list length 57, combined list length at most 59, and positive
list length equal to the combined list length. -/
theorem claim_C7_amended (pick : Nat → Fin 3) (shuffle : List String → List String)
    (hperm : (shuffle (pyCopy descriptors)).Perm descriptors) :
    parse_input "cat, dog" = ["cat", "dog"] ∧
    descriptors.length = 57 ∧
    (generate_negated_list pick (parse_input "cat, dog")).length = 2 ∧
    ∃ bad combined positive : List String,
      generate_bad_descriptor_list shuffle (parse_input "cat, dog") descriptors = some bad ∧
      bad.length = 57 ∧
      combine_lists (generate_negated_list pick (parse_input "cat, dog")) bad 1000
        "negated_first" = some combined ∧
      combined.length ≤ 59 ∧
      generate_positive_list (parse_input "cat, dog") combined = some positive ∧
      positive.length = combined.length := by
  have hitems : parse_input "cat, dog" = ["cat", "dog"] := by decide
  have hin : parse_input "cat, dog" ≠ [] := by rw [hitems]; decide
  have hlen57 : descriptors.length = 57 := by decide
  have hshuf : (shuffle (pyCopy descriptors)).length = 57 := by
    rw [hperm.length_eq, hlen57]
  have hneg2 : (generate_negated_list pick (parse_input "cat, dog")).length = 2 := by
    rw [generate_negated_list, negated_go_length pick _ 0, hitems]
    rfl
  refine ⟨hitems, hlen57, hneg2, ?_⟩
  obtain ⟨k, hk, hcomb, -, -⟩ := combine_lists_negated_first
    (generate_negated_list pick (parse_input "cat, dog"))
    ((List.range (shuffle (pyCopy descriptors)).length).map (fun i =>
      (shuffle (pyCopy descriptors)).getD i "" ++ " " ++
        (parse_input "cat, dog").getD (i % (parse_input "cat, dog").length) "")) 1000
  refine ⟨_, _, _,
    generate_bad_descriptor_list_eq shuffle (parse_input "cat, dog") descriptors hin,
    by simp [hshuf], hcomb, ?_, generate_positive_list_eq _ _ hin, by simp⟩
  simp only [List.length_map, List.length_range, hshuf] at hk
  simp only [List.length_append, List.length_take, List.length_map, List.length_range,
    hshuf, hneg2]
  omega

theorem claim_C7_amended_witness :
    (pyCopy descriptors).Perm descriptors ∧
    (parse_input "cat, dog" = ["cat", "dog"] ∧
      descriptors.length = 57 ∧
      (generate_negated_list (fun _ => 0) (parse_input "cat, dog")).length = 2 ∧
      ∃ bad combined positive : List String,
        generate_bad_descriptor_list (fun l => l) (parse_input "cat, dog") descriptors =
          some bad ∧
        bad.length = 57 ∧
        combine_lists (generate_negated_list (fun _ => 0) (parse_input "cat, dog")) bad 1000
          "negated_first" = some combined ∧
        combined.length ≤ 59 ∧
        generate_positive_list (parse_input "cat, dog") combined = some positive ∧
        positive.length = combined.length) :=
  ⟨List.Perm.refl _, claim_C7_amended (fun _ => 0) (fun l => l) (List.Perm.refl _)⟩

/-- C8: for every non-empty item list and the built-in catalog, the whole
pipeline of `build_versions` (negation, descriptor pairing, budgeted
combination at 1000, positive mirror) succeeds: no indexing, modulo, or
random selection ever sees an empty list, so no error path is taken. -/
theorem claim_C8_pipeline_total (pick : Nat → Fin 3) (shuffle : List String → List String)
    (input_items : List String) (hin : input_items ≠ [])
    (_hperm : (shuffle (pyCopy descriptors)).Perm descriptors) :
    ∃ good bad : String,
      build_versions pick shuffle input_items descriptors = some (good, bad) := by
  obtain ⟨L, hbadeq⟩ : ∃ L, generate_bad_descriptor_list shuffle input_items descriptors =
      some L :=
    ⟨_, generate_bad_descriptor_list_eq shuffle input_items descriptors hin⟩
  obtain ⟨k, hk, hcomb, -, -⟩ := combine_lists_negated_first
    (generate_negated_list pick input_items) L 1000
  obtain ⟨P, hpos⟩ : ∃ P, generate_positive_list input_items
      (generate_negated_list pick input_items ++ L.take k) = some P :=
    ⟨_, generate_positive_list_eq _ _ hin⟩
  refine ⟨join_comma P, join_comma (generate_negated_list pick input_items ++ L.take k), ?_⟩
  simp [build_versions, hbadeq, hcomb, hpos]

theorem claim_C8_pipeline_total_witness :
    (["cat"] : List String) ≠ [] ∧ (pyCopy descriptors).Perm descriptors ∧
    ∃ good bad : String,
      build_versions (fun _ => 0) (fun l => l) ["cat"] descriptors = some (good, bad) :=
  ⟨by decide, List.Perm.refl _,
    claim_C8_pipeline_total (fun _ => 0) (fun l => l) ["cat"] (by decide) (List.Perm.refl _)⟩

/-- C9: `combine_lists` with any `combination_type` other than
`"negated_first"` — in particular the reserved `"bad_first"` and
`"randomized"` — does not return a list: the Python code reaches
`return combined_terms` with `combined_terms` unbound and raises, which the
embedding renders as `none`. -/
theorem claim_C9_other_modes_error (negated_list bad_list : List String) (length_limit : Nat) :
    combine_lists negated_list bad_list length_limit "bad_first" = none ∧
    combine_lists negated_list bad_list length_limit "randomized" = none ∧
    ∀ combination_type : String, combination_type ≠ "negated_first" →
      combine_lists negated_list bad_list length_limit combination_type = none := by
  refine ⟨?_, ?_, ?_⟩
  · rw [combine_lists, if_neg (by decide)]
  · rw [combine_lists, if_neg (by decide)]
  · intro combination_type hct
    rw [combine_lists, if_neg hct]

theorem claim_C9_other_modes_error_witness :
    ("bogus" : String) ≠ "negated_first" ∧
    combine_lists ["n x"] ["b x"] 7 "bogus" = none :=
  ⟨by decide, (claim_C9_other_modes_error ["n x"] ["b x"] 7).2.2 "bogus" (by decide)⟩

/-- C10: neither `generate_bad_descriptor_list` nor `combine_lists` mutates
its argument lists: the former shuffles only a copy of the catalog, the
latter appends only to a copy of the negated list, so in the state-passing
embedding every argument list comes back unchanged while the computed result
agrees with the plain embedding. -/
theorem claim_C10_inputs_unchanged (shuffle : List String → List String)
    (input_items descs negated_list bad_list : List String) (length_limit : Nat)
    (combination_type : String) :
    (generate_bad_descriptor_list_state shuffle input_items descs).2 =
      (input_items, descs) ∧
    (generate_bad_descriptor_list_state shuffle input_items descs).1 =
      generate_bad_descriptor_list shuffle input_items descs ∧
    (combine_lists_state negated_list bad_list length_limit combination_type).2 =
      (negated_list, bad_list) ∧
    (combine_lists_state negated_list bad_list length_limit combination_type).1 =
      combine_lists negated_list bad_list length_limit combination_type :=
  ⟨rfl, rfl, rfl, rfl⟩

example : parse_input "a; b ,, c" = ["a", "b", "c"] := by decide
example : parse_input "" = [] := by decide
example : parse_input "cat, dog" = ["cat", "dog"] := by decide
example : descriptors.length = 57 := by decide
example : generate_negated_list (fun _ => 1) ["cat", "dog"] = ["no cat", "no dog"] := by decide
example : generate_bad_descriptor_list (fun l => l) ["a"] ["X", "Y"] = some ["X a", "Y a"] := by
  decide
example : generate_bad_descriptor_list (fun l => l) [] ["X", "Y"] = none := by decide
example : generate_positive_list ["a", "b"] ["q", "q", "q", "q", "q"] =
    some ["a", "b", "a", "b", "a"] := by decide
example : combine_lists ["no a"] ["X a", "Y a"] 10 "negated_first" = some ["no a", "X a"] := by
  decide
example : combine_lists ["no a"] ["X a"] 10 "bad_first" = none := by decide
